import Mathlib

/-!
Verification of the soso_flow repository (SoSoValue ETF flow sentry and
cumulative chart scripts) against its natural-language specification.

The two Python source files are shallowly embedded below:
  * `src/sosovalue_api_etf_flow.py`  — numeric coercion (`fnum`), the recursive
    payload normalizer (`pick_series`), quota bookkeeping (`can_use_api`,
    `add_api_calls`), embed assembly (`build_embed`), per-fund metrics parsing
    (`parse_funds_from_metrics`), and the per-asset / main control flow.
  * `src/sosovalue_etf_cum_chart.py` — list extraction (`extract_list`),
    confirmation gating (`is_confirmed_yday`), history fetching
    (`fetch_history`) and the chart main flow.

Python floats are modelled as rationals (ℚ); all the concrete values used by
the claims (12.5, 1200.0, 0.0, …) are exactly representable in both.  Python
exceptions are modelled with `Except Unit`.  JSON payloads are modelled by the
`Json` inductive below.
-/

set_option maxRecDepth 4000

namespace SosoFlow

/-- A calendar date as produced by Python `datetime.date`: year, month, day. -/
structure PDate where
  y : Nat
  m : Nat
  d : Nat
deriving DecidableEq, Repr

/-- Python `date` comparison is lexicographic on (year, month, day): `a <= b`. -/
def PDate.ble (a b : PDate) : Bool :=
  if a.y ≠ b.y then a.y < b.y
  else if a.m ≠ b.m then a.m < b.m
  else a.d ≤ b.d

/-- Strict lexicographic order on dates: `a < b`. -/
def PDate.blt (a b : PDate) : Bool :=
  if a.y ≠ b.y then a.y < b.y
  else if a.m ≠ b.m then a.m < b.m
  else a.d < b.d

/-- JSON-ish values as Python `json.loads` produces them: `None`, booleans,
numbers (ints and floats both modelled as ℚ), strings, lists and dicts
(association lists in insertion order). -/
inductive Json where
  | null : Json
  | bool : Bool → Json
  | num : ℚ → Json
  | str : String → Json
  | arr : List Json → Json
  | obj : List (String × Json) → Json

/-- `k in d` / `d[k]` on a Python dict: first binding wins (keys from
`json.loads` are unique). -/
def lookup (k : String) (kvs : List (String × Json)) : Option Json :=
  (kvs.find? (fun p => p.1 == k)).map (·.2)

/-- Python truthiness of a JSON value (`bool(x)`). -/
def Json.truthy : Json → Bool
  | .null => false
  | .bool b => b
  | .num q => q ≠ 0
  | .str s => s ≠ ""
  | .arr xs => ¬xs.isEmpty
  | .obj kvs => ¬kvs.isEmpty

/-- Rendering of a number for Python `str`.  Integers render exactly; for
non-integer rationals we fall back to the `num/den` rendering of ℚ, which
differs from Python float repr but contains a slash and digits only, so it can
never parse as a date nor as a number with the coercion grammar — the only two
uses `str` is put to in the source. -/
def numStr (q : ℚ) : String :=
  if q.den = 1 then
    (if q.num < 0 then "-" ++ toString q.num.natAbs else toString q.num.natAbs)
  else toString q

mutual
/-- Python `repr` of a JSON value (string quoting simplified: no escaping). -/
def pyRepr : Json → String
  | .null => "None"
  | .bool b => if b then "True" else "False"
  | .num q => numStr q
  | .str s => String.singleton (Char.ofNat 39) ++ s ++ String.singleton (Char.ofNat 39)
  | .arr xs => "[" ++ pyReprList xs ++ "]"
  | .obj kvs => "\x7b" ++ pyReprObj kvs ++ "\x7d"

def pyReprList : List Json → String
  | [] => ""
  | [x] => pyRepr x
  | x :: rest => pyRepr x ++ ", " ++ pyReprList rest

def pyReprObj : List (String × Json) → String
  | [] => ""
  | [(k, v)] => String.singleton (Char.ofNat 39) ++ k ++ String.singleton (Char.ofNat 39)
      ++ ": " ++ pyRepr v
  | (k, v) :: rest => String.singleton (Char.ofNat 39) ++ k ++ String.singleton (Char.ofNat 39)
      ++ ": " ++ pyRepr v ++ ", " ++ pyReprObj rest
end

/-- Python `str` of a JSON value: the string itself for strings, `repr`-style
otherwise. -/
def pyStr : Json → String
  | .str s => s
  | x => pyRepr x

/-- The whitespace characters recognized by `str.split()` (ASCII subset; the
source additionally replaces NBSP `\xa0` by a space before splitting). -/
def isPyWs (c : Char) : Bool :=
  c = ' ' || c.toNat = 9 || c.toNat = 10 || c.toNat = 11 || c.toNat = 12 || c.toNat = 13

/-- Split a character list on whitespace runs, as Python `str.split()`. -/
def pyTokensAux : List Char → List Char → List (List Char)
  | [], acc => if acc.isEmpty then [] else [acc.reverse]
  | c :: rest, acc =>
    if isPyWs c then
      if acc.isEmpty then pyTokensAux rest [] else acc.reverse :: pyTokensAux rest []
    else pyTokensAux rest (c :: acc)

/-- Join tokens with single spaces (`" ".join(...)`). -/
def joinSpaces : List (List Char) → List Char
  | [] => []
  | [t] => t
  | t :: rest => t ++ ' ' :: joinSpaces rest

/-- `norm` from the source:
`" ".join(str(s).replace("\xa0"," ").split()).strip()` applied to a string
(the `str(s)` part is applied by the callers through `pyStr`; the final
`.strip()` is a no-op after the join). -/
def norm (s : String) : String :=
  String.mk
    (joinSpaces (pyTokensAux (s.data.map (fun c => if c.toNat = 160 then ' ' else c)) []))

/-! ### `datetime.strptime` model

CPython `_strptime` compiles the formats into regexes:
`%Y` is exactly four digits, `%m` matches `1[0-2]|0[1-9]|[1-9]`,
`%d` matches `3[01]|[12]\d|0[1-9]|[1-9]`, `%b` matches a three-letter month
abbreviation case-insensitively, and whitespace in the format matches a run
of whitespace.  The whole string must be consumed, and `datetime()` then
validates the day against the month length (and requires year at least 1).
For these formats the ordered-alternation match never needs backtracking,
so a first-alternative-wins scanner is exact. -/

/-- Consume exactly four digits (`%Y`). -/
def parseY4 : List Char → Option (Nat × List Char)
  | c1 :: c2 :: c3 :: c4 :: rest =>
    if c1.isDigit && c2.isDigit && c3.isDigit && c4.isDigit then
      some ((c1.toNat - 48) * 1000 + (c2.toNat - 48) * 100 +
            (c3.toNat - 48) * 10 + (c4.toNat - 48), rest)
    else none
  | _ => none

/-- `%m`: `1[0-2]|0[1-9]|[1-9]`, alternatives tried in order. -/
def parseMon : List Char → Option (Nat × List Char)
  | c1 :: c2 :: rest =>
    if c1 = '1' && ('0' ≤ c2 && c2 ≤ '2') then some (10 + (c2.toNat - 48), rest)
    else if c1 = '0' && ('1' ≤ c2 && c2 ≤ '9') then some (c2.toNat - 48, rest)
    else if '1' ≤ c1 && c1 ≤ '9' then some (c1.toNat - 48, c2 :: rest)
    else none
  | [c1] => if '1' ≤ c1 && c1 ≤ '9' then some (c1.toNat - 48, []) else none
  | [] => none

/-- `%d`: `3[01]|[12]\d|0[1-9]|[1-9]`, alternatives tried in order. -/
def parseDay : List Char → Option (Nat × List Char)
  | c1 :: c2 :: rest =>
    if c1 = '3' && (c2 = '0' || c2 = '1') then some (30 + (c2.toNat - 48), rest)
    else if ('1' ≤ c1 && c1 ≤ '2') && c2.isDigit then
      some ((c1.toNat - 48) * 10 + (c2.toNat - 48), rest)
    else if c1 = '0' && ('1' ≤ c2 && c2 ≤ '9') then some (c2.toNat - 48, rest)
    else if '1' ≤ c1 && c1 ≤ '9' then some (c1.toNat - 48, c2 :: rest)
    else none
  | [c1] => if '1' ≤ c1 && c1 ≤ '9' then some (c1.toNat - 48, []) else none
  | [] => none

/-- The C-locale month abbreviations recognized by `%b` (lower-cased). -/
def monthAbbrevs : List String :=
  ["jan", "feb", "mar", "apr", "may", "jun", "jul", "aug", "sep", "oct", "nov", "dec"]

/-- `%b`: a three-letter month abbreviation, case-insensitive. -/
def parseMonB : List Char → Option (Nat × List Char)
  | c1 :: c2 :: c3 :: rest =>
    let s := String.mk [c1.toLower, c2.toLower, c3.toLower]
    match monthAbbrevs.indexOf? s with
    | some i => some (i + 1, rest)
    | none => none
  | _ => none

/-- Whitespace in a strptime format: one or more whitespace characters. -/
def parseWs1 : List Char → Option (List Char)
  | c :: rest =>
    if isPyWs c then some (rest.dropWhile isPyWs) else none
  | [] => none

/-- A literal character in a strptime format. -/
def parseLit (lit : Char) : List Char → Option (List Char)
  | c :: rest => if c = lit then some rest else none
  | [] => none

/-- Gregorian leap year, as `calendar.isleap`. -/
def isLeap (y : Nat) : Bool :=
  y % 4 = 0 && (y % 100 ≠ 0 || y % 400 = 0)

/-- Days in a month, as used by `datetime.date` validation. -/
def daysInMonth (y m : Nat) : Nat :=
  if m = 2 then (if isLeap y then 29 else 28)
  else if m = 4 || m = 6 || m = 9 || m = 11 then 30
  else 31

/-- `datetime.date(y, m, d)` construction: validates year at least 1 and the
day against the month length (month range is already enforced by the regex). -/
def mkDate (y m d : Nat) : Option PDate :=
  if 1 ≤ y && 1 ≤ d && d ≤ daysInMonth y m then some ⟨y, m, d⟩ else none

/-- `datetime.strptime(s, "%Y-%m-%d").date()`, `None` on failure. -/
def strpYMDdash (s : String) : Option PDate := do
  let (y, r1) ← parseY4 s.data
  let r2 ← parseLit '-' r1
  let (m, r3) ← parseMon r2
  let r4 ← parseLit '-' r3
  let (d, r5) ← parseDay r4
  if r5.isEmpty then mkDate y m d else none

/-- `datetime.strptime(s, "%Y/%m/%d").date()`, `None` on failure. -/
def strpYMDslash (s : String) : Option PDate := do
  let (y, r1) ← parseY4 s.data
  let r2 ← parseLit '/' r1
  let (m, r3) ← parseMon r2
  let r4 ← parseLit '/' r3
  let (d, r5) ← parseDay r4
  if r5.isEmpty then mkDate y m d else none

/-- `datetime.strptime(s, "%d %b %Y").date()`, `None` on failure. -/
def strpDBY (s : String) : Option PDate := do
  let (d, r1) ← parseDay s.data
  let r2 ← parseWs1 r1
  let (m, r3) ← parseMonB r2
  let r4 ← parseWs1 r3
  let (y, r5) ← parseY4 r4
  if r5.isEmpty then mkDate y m d else none

/-- `to_date` from `pick_series`: normalize, then try the three formats in
order (`%Y-%m-%d`, `%Y/%m/%d`, `%d %b %Y`); first successful parse wins,
`None` if all fail.  The argument is an arbitrary payload value (the source
applies `str()` inside `norm`). -/
def to_date (x : Json) : Option PDate :=
  let s := norm (pyStr x)
  (strpYMDdash s).orElse (fun _ => (strpYMDslash s).orElse (fun _ => strpDBY s))

/-- Zero-padded rendering of a natural number to (at least) a given width. -/
def padNum (width n : Nat) : String :=
  let s := toString n
  String.mk (List.replicate (width - s.length) '0') ++ s

/-- `date.strftime("%Y-%m-%d")` / `date.isoformat()`. -/
def fmtYMD (d : PDate) : String :=
  padNum 4 d.y ++ "-" ++ padNum 2 d.m ++ "-" ++ padNum 2 d.d

/-- `date.strftime("%d %b %Y")` (C locale month abbreviations). -/
def fmtDBY (d : PDate) : String :=
  let abbrevs := ["Jan", "Feb", "Mar", "Apr", "May", "Jun",
                  "Jul", "Aug", "Sep", "Oct", "Nov", "Dec"]
  padNum 2 d.d ++ " " ++ (abbrevs.getD (d.m - 1) "???") ++ " " ++ padNum 4 d.y

/-! ### Python `float(str)` and `fnum` -/

/-- A run of decimal digits possibly containing single underscores between
digits (Python numeric literal rule).  Returns the digits (underscores
removed) and the unconsumed rest; `none` if the input does not start with a
digit. -/
def digitGroup : List Char → Option (List Char × List Char)
  | c :: rest =>
    if c.isDigit then some (digitGroupCont rest [c]) else none
  | [] => none
where
  digitGroupCont : List Char → List Char → List Char × List Char
    | '_' :: c :: rest, acc =>
      if c.isDigit then digitGroupCont rest (c :: acc)
      else (acc.reverse, '_' :: c :: rest)
    | c :: rest, acc =>
      if c.isDigit then digitGroupCont rest (c :: acc) else (acc.reverse, c :: rest)
    | [], acc => (acc.reverse, [])

/-- Numeric value of a digit list. -/
def digitsVal (ds : List Char) : Nat :=
  ds.foldl (fun acc c => acc * 10 + (c.toNat - 48)) 0

/-- The fractional/mantissa part accepted by `float`: `digits`, `digits.`,
`digits.digits` or `.digits`.  Returns the value and the rest. -/
def parseMantissa (cs : List Char) : Option (ℚ × List Char) :=
  match digitGroup cs with
  | some (intDs, r1) =>
    match r1 with
    | '.' :: r2 =>
      match digitGroup r2 with
      | some (fracDs, r3) =>
        some ((digitsVal intDs : ℚ) + (digitsVal fracDs : ℚ) / (10 ^ fracDs.length : ℚ), r3)
      | none => some ((digitsVal intDs : ℚ), r2)
    | _ => some ((digitsVal intDs : ℚ), r1)
  | none =>
    match cs with
    | '.' :: r1 =>
      match digitGroup r1 with
      | some (fracDs, r2) =>
        some ((digitsVal fracDs : ℚ) / (10 ^ fracDs.length : ℚ), r2)
      | none => none
    | _ => none

/-- Optional exponent part `e`/`E`, optional sign, digit group. -/
def parseExp (q : ℚ) (cs : List Char) : Option (ℚ × List Char) :=
  match cs with
  | c :: r1 =>
    if c = 'e' || c = 'E' then
      let (eneg, r2) := match r1 with
        | '-' :: r => (true, r)
        | '+' :: r => (false, r)
        | r => (false, r)
      match digitGroup r2 with
      | some (expDs, r3) =>
        let e := digitsVal expDs
        some (if eneg then q / (10 ^ e : ℚ) else q * (10 ^ e : ℚ), r3)
      | none => none
    else some (q, cs)
  | [] => some (q, [])

/-- Python `float(s)` for finite decimal literals: optional surrounding
whitespace, optional sign, mantissa, optional exponent.  `none` models a
`ValueError`.  (`inf`/`nan` literals are outside the rational model and also
return `none`; no claim exercises them.) -/
def pyFloat (s : String) : Option ℚ := do
  let cs := (s.data.dropWhile isPyWs).reverse.dropWhile isPyWs |>.reverse
  let (neg, cs1) := match cs with
    | '-' :: r => (true, r)
    | '+' :: r => (false, r)
    | r => (false, r)
  let (q, r1) ← parseMantissa cs1
  let (q2, r2) ← parseExp q r1
  if r1.length < r2.length then none
  else if r2.isEmpty then some (if neg then -q2 else q2) else none

/-- The regex `^(-?\d+(?:\.\d+)?)([mbMB])?$` from `fnum`: plain digits (no
underscores, no exponent), optional fraction requiring digits, optional
one-letter suffix.  Returns the numeric value and whether the suffix was
`b`/`B`. -/
def suffixMatch (cs : List Char) : Option (ℚ × Bool) :=
  let (neg, cs1) := match cs with
    | '-' :: r => (true, r)
    | r => (false, r)
  let intDs := cs1.takeWhile Char.isDigit
  let r1 := cs1.dropWhile Char.isDigit
  if intDs.isEmpty then none else
  let withFrac : Option (ℚ × List Char) :=
    match r1 with
    | '.' :: r2 =>
      let fracDs := r2.takeWhile Char.isDigit
      let r3 := r2.dropWhile Char.isDigit
      if fracDs.isEmpty then none
      else some ((digitsVal intDs : ℚ) + (digitsVal fracDs : ℚ) / (10 ^ fracDs.length : ℚ), r3)
    | _ => some ((digitsVal intDs : ℚ), r1)
  match withFrac with
  | none => none
  | some (q, r3) =>
    let qv := if neg then -q else q
    match r3 with
    | [] => some (qv, false)
    | [c] =>
      if c = 'b' || c = 'B' then some (qv, true)
      else if c = 'm' || c = 'M' then some (qv, false)
      else none
    | _ => none

/-- `s.startswith("(") and s.endswith(")")`. -/
def parenShaped (cs : List Char) : Bool :=
  match cs.head?, cs.getLast? with
  | some c1, some c2 => c1 = '(' && c2 = ')'
  | _, _ => false

/-- `norm(x).replace(",", "")` as a character list. -/
def cleanChars (s : String) : List Char :=
  (norm s).data.filter (fun c => c ≠ ',')

/-- `s in {"", "-", "–", "—"}` after cleaning. -/
def isBlankDash (s : List Char) : Bool :=
  s.isEmpty || s = ['-'] || s = ['–'] || s = ['—']

/-- `fnum` from the source: the tolerant numeric coercion.
`None` → 0.0; numbers pass through (`bool` is an `int` subclass in Python, so
`True`/`False` coerce to 1.0/0.0); strings are normalized, commas stripped,
then: blank or a lone dash → 0.0; parenthesized → negated inner float (0.0 on
inner failure); the digit/suffix regex with `b`/`B` multiplying by 1000;
otherwise a direct `float` parse, 0.0 on failure.  Non-string non-numeric
values reach the string path through `str()` (inside `norm`) and fail every
parse. -/
def fnum (x : Json) : ℚ :=
  match x with
  | .null => 0
  | .bool b => if b then 1 else 0
  | .num q => q
  | _ =>
    let s := cleanChars (pyStr x)
    if isBlankDash s then 0
    else if parenShaped s then
      match pyFloat (String.mk ((s.drop 1).dropLast)) with
      | some q => -q
      | none => 0
    else
      match suffixMatch s with
      | some (q, isB) => if isB then q * 1000 else q
      | none => (pyFloat (String.mk s)).getD 0


/-! ### The recursive payload normalizer `pick_series` -/

/-- A FlowRecord: one fund's named net flow. -/
structure FlowRec where
  name : String
  net : ℚ
deriving DecidableEq, Repr

/-- A DayGroup: one calendar day's flow records. -/
structure Row where
  date : PDate
  items : List FlowRec
deriving DecidableEq, Repr

def DATE_KEYS : List String := ["date", "tradingDay", "day", "statDate", "dateStr", "date_time"]
def ITEM_KEYS : List String := ["items", "funds", "etfs", "records", "list", "rows", "data"]
def NAME_KEYS : List String := ["ticker", "fund", "name", "etf", "symbol"]
def NET_KEYS : List String := ["net", "netFlow", "net_flow", "netUsd", "flow", "net_usd"]
def INFLOW_KEYS : List String := ["inflow", "inFlowUsd", "spotInflow"]
def OUTFLOW_KEYS : List String := ["outflow", "outFlowUsd", "spotOutflow"]

/-- `next((d[k] for k in keys if k in d), None)`: the value under the first
present key, `none` if no key is present. -/
def firstPresent (keys : List String) (kvs : List (String × Json)) : Option Json :=
  (keys.find? (fun k => (lookup k kvs).isSome)).bind (fun k => lookup k kvs)

/-- Python `x is None` for a probed dict value: the key was absent, or its
value was JSON `null`. -/
def pyIsNone : Option Json → Bool
  | none => true
  | some .null => true
  | some _ => false

/-- View an absent probe result as Python `None`. -/
def jsonOf : Option Json → Json
  | none => .null
  | some v => v

/-- `parse_item_dict` from the source: extract a FlowRecord from an item
mapping.  Name: first present name key (falsy values fall back to `"ETF"`
through `name or "ETF"`); net: first present net key, else
`fnum(inflow) - fnum(outflow)` when at least one of the inflow/outflow keys
has a non-`None` value; drop the item when neither a name nor a value was
determined. -/
def parse_item_dict (d : List (String × Json)) : Option FlowRec :=
  let name0 := firstPresent NAME_KEYS d
  let val0 := firstPresent NET_KEYS d
  -- val is `none` (missing), a JSON value, or a computed float
  let val1 : Option (Json ⊕ ℚ) :=
    if pyIsNone val0 then
      let inflow := firstPresent INFLOW_KEYS d
      let outflow := firstPresent OUTFLOW_KEYS d
      if !pyIsNone inflow || !pyIsNone outflow then
        some (.inr (fnum (jsonOf inflow) - fnum (jsonOf outflow)))
      else none
    else (val0.map .inl)
  if pyIsNone name0 && val1.isNone then none
  else
    let nameStr :=
      match name0 with
      | some v => if v.truthy then pyStr v else "ETF"
      | none => "ETF"
    let net : ℚ :=
      match val1 with
      | some (.inl v) => fnum v
      | some (.inr q) => q
      | none => 0     -- fnum(None)
    some ⟨nameStr, net⟩

/-- `next((to_date(obj[k]) for k in DATE_KEYS if k in obj), None)` splits
into: the value under the first present date key... -/
def firstDateVal (kvs : List (String × Json)) : Option Json :=
  match DATE_KEYS.find? (fun k => (lookup k kvs).isSome) with
  | some k => lookup k kvs
  | none => none

/-- `next((obj[k] for k in ITEM_KEYS if k in obj and isinstance(obj[k], list)), None)`:
the list under the first present item key whose value is a list. -/
def firstItemsVal (kvs : List (String × Json)) : Option (List Json) :=
  match ITEM_KEYS.find? (fun k =>
      match lookup k kvs with | some (.arr _) => true | _ => false) with
  | some k => match lookup k kvs with | some (.arr xs) => some xs | _ => none
  | none => none

/-- The record-collection loop of `try_make_row`: every element that is
itself a mapping goes through `parse_item_dict`; `None` results are dropped
(the returned dict is never falsy). -/
def rowRecords (xs : List Json) : List FlowRec :=
  xs.filterMap (fun it =>
    match it with
    | .obj m => parse_item_dict m
    | _ => none)

/-- `try_make_row` from the source.  The date comes from the FIRST present
date key (`next` yields `to_date` of that key only, parsed or not); the
items come from the first present key whose value is a list (`if not items`
also rejects an empty list); a Row results only when at least one record was
produced. -/
def try_make_row (kvs : List (String × Json)) : Option Row :=
  match (firstDateVal kvs).bind to_date with
  | none => none
  | some d =>
    match firstItemsVal kvs with
    | none => none
    | some xs =>
      if xs.isEmpty then none
      else
        let out := rowRecords xs
        if out.isEmpty then none else some ⟨d, out⟩

mutual
/-- `walk` from `pick_series`: depth-first, at every mapping node first try
to emit a row, then recurse into all values in order; recurse into every
list element. -/
def walkRows : Json → List Row
  | .obj kvs =>
    (match try_make_row kvs with
     | some r => [r]
     | none => []) ++ walkVals kvs
  | .arr xs => walkElems xs
  | _ => []

def walkVals : List (String × Json) → List Row
  | [] => []
  | (_, v) :: rest => walkRows v ++ walkVals rest

def walkElems : List Json → List Row
  | [] => []
  | x :: rest => walkRows x ++ walkElems rest
end

/-- One step of the `by_date` accumulation:
`by_date.setdefault(r["date"], []).extend(r["items"])` on an
insertion-ordered association list. -/
def addRowAux : List (PDate × List FlowRec) → Row → List (PDate × List FlowRec)
  | [], r => [(r.date, r.items)]
  | (d, its) :: rest, r =>
    if r.date = d then (d, its ++ r.items) :: rest
    else (d, its) :: addRowAux rest r

/-- The ascending-by-date order used by `sorted(by_date.items())` (keys are
distinct, so the tuple comparison never reaches the second component). -/
def entRel (p q : PDate × List FlowRec) : Prop := PDate.ble p.1 q.1 = true

instance : DecidableRel entRel := fun p q => inferInstanceAs (Decidable (_ = true))

instance : IsTotal (PDate × List FlowRec) entRel :=
  ⟨fun a b => by
    unfold entRel PDate.ble
    split_ifs <;> simp only [decide_eq_true_eq] <;> omega⟩

instance : IsTrans (PDate × List FlowRec) entRel :=
  ⟨fun a b c h1 h2 => by
    unfold entRel PDate.ble at h1 h2 ⊢
    split_ifs at h1 h2 ⊢ <;> simp only [decide_eq_true_eq] at h1 h2 ⊢ <;> omega⟩

/-- `pick_series` from the source: walk the payload collecting rows, group
them by date (first-discovery order, items extended in discovery order),
then sort ascending by date. -/
def pick_series (payload : Json) : List Row :=
  let rows := walkRows payload
  let by_date := rows.foldl addRowAux []
  (List.insertionSort entRel by_date).map (fun p => ⟨p.1, p.2⟩)


/-! ### `build_embed` -/

/-- One Discord embed field.  The numeric value is kept as a rational; the
f-string rendering `"{emoji} {v:+,.1f} $m"` is abstracted to the indicator
emoji plus the value. -/
structure EField where
  name : String
  indicator : String
  value : ℚ
  inline : Bool
deriving DecidableEq, Repr

/-- The embed produced by `build_embed`.  The footer text
`"Net: {net:+,.1f} $m • Source: SoSoValue API"` is abstracted to the net
total it renders. -/
structure Embed where
  title : String
  color : Nat
  fields : List EField
  footerNet : ℚ
deriving DecidableEq, Repr

/-- The sort relation of `sorted(flows, key=lambda x: abs(x[1]), reverse=True)`:
stable descending by absolute net (insertion sort with `|b| <= |a|` reproduces
CPython stable sort with a reversed key comparison). -/
def absGe (a b : String × ℚ) : Prop := |b.2| ≤ |a.2|

instance : DecidableRel absGe := fun a b => inferInstanceAs (Decidable (_ ≤ _))

instance : IsTotal (String × ℚ) absGe := ⟨fun a b => le_total |b.2| |a.2|⟩

instance : IsTrans (String × ℚ) absGe := ⟨fun _ _ _ h1 h2 => le_trans h2 h1⟩

/-- `build_embed` from the source: sort all flows by descending absolute
value, keep the first `top_n` (`SHOW_TOP_N`, default 24), compute the net
total over ALL flows, pick the color by the total's sign, and render one
field per kept flow with a sign indicator. -/
def build_embed (title : String) (flows : List (String × ℚ)) (top_n : Nat) : Embed :=
  let flows_sorted := (List.insertionSort absGe flows).take top_n
  let net : ℚ := (flows.map (fun p => p.2)).sum
  let color : Nat := if net > 0 then 0x2ecc71 else if net < 0 then 0xe74c3c else 0x95a5a6
  { title := title
    color := color
    fields := flows_sorted.map (fun p =>
      ⟨p.1, if p.2 > 0 then "🟢" else if p.2 < 0 then "🔴" else "⚪", p.2, true⟩)
    footerNet := net }

/-! ### Persisted state and the monthly call quota -/

/-- The slice of `sosovalue_state.json` the embedded logic reads and writes. -/
structure SosoState where
  monthly_calls : List (String × Nat)
  last_btc_day : Option String
  last_eth_day : Option String
deriving DecidableEq, Repr

/-- `state.get("monthly_calls", {}).get(ym, 0)`. -/
def getCalls (s : SosoState) (ym : String) : Nat :=
  ((s.monthly_calls.find? (fun p => p.1 == ym)).map (fun p => p.2)).getD 0

/-- `can_use_api` from the source: `(used + needed) <= MAX_CALLS_PER_MONTH`
for the current UTC year-month bucket (the ceiling defaults to 1000 via the
`MAX_CALLS_PER_MONTH` environment variable and is passed as a parameter
here, like the current month string). -/
def can_use_api (s : SosoState) (needed : Nat) (ym : String) (maxCalls : Nat) : Bool :=
  getCalls s ym + needed ≤ maxCalls

/-- `calls[ym] = calls.get(ym, 0) + used` on an insertion-ordered dict. -/
def bumpCalls : List (String × Nat) → String → Nat → List (String × Nat)
  | [], ym, used => [(ym, used)]
  | (k, v) :: rest, ym, used =>
    if k = ym then (k, v + used) :: rest else (k, v) :: bumpCalls rest ym used

/-- `add_api_calls` from the source. -/
def add_api_calls (s : SosoState) (used : Nat) (ym : String) : SosoState :=
  { s with monthly_calls := bumpCalls s.monthly_calls ym used }

/-! ### Metrics payload parsing (`parse_funds_from_metrics`,
`parse_aggregate_from_metrics`) -/

/-- `x.get(k)` in Python: requires a dict (`AttributeError` otherwise,
modelled as `Except.error`), yields `None` (JSON null) for a missing key. -/
def pyGet (x : Json) (k : String) : Except Unit Json :=
  match x with
  | .obj kvs => .ok ((lookup k kvs).getD .null)
  | _ => .error ()

/-- `a or b` on payload values. -/
def pyOr (a b : Json) : Json := if a.truthy then a else b

/-- Iterating a Python value: lists yield elements, dicts yield their keys,
strings their characters; other types raise `TypeError`. -/
def iterElems : Json → Except Unit (List Json)
  | .arr xs => .ok xs
  | .obj kvs => .ok (kvs.map (fun p => .str p.1))
  | .str s => .ok (s.data.map (fun c => .str (String.singleton c)))
  | _ => .error ()

/-- Python `x == 3` for a payload value: true exactly for the number 3. -/
def isNum3 : Json → Bool
  | .num q => q == 3
  | _ => false

/-- Processing of one record of `data.list` inside
`parse_funds_from_metrics`: `none` when the record is skipped
(`dailyNetInflow.status == 3`). -/
def parseFundRec (rec : Json) : Except Unit (Option FlowRec) := do
  let t ← pyGet rec "ticker"
  let i ← pyGet rec "id"
  let inst ← pyGet rec "institute"
  let nameJ := pyOr t (pyOr i (pyOr inst (.str "ETF")))
  let dnV ← pyGet rec "dailyNetInflow"
  let dn := pyOr dnV (.obj [])
  let status ← pyGet dn "status"
  if isNum3 status then
    return none
  else
    let value ← pyGet dn "value"
    return some ⟨pyStr nameJ, fnum value⟩

/-- The record elements of `(payload.get("data") or {}).get("list") or []`. -/
def fundsElems (payload : Json) : Except Unit (List Json) := do
  let dataV ← pyGet payload "data"
  let lstV ← pyGet (pyOr dataV (.obj [])) "list"
  iterElems (pyOr lstV (.arr []))

/-- One iteration of the `for rec in lst` loop: append the parsed record,
or keep the accumulator when the record was skipped. -/
def fundsStep (acc : List FlowRec) (rec : Json) : Except Unit (List FlowRec) := do
  match ← parseFundRec rec with
  | some r => pure (acc ++ [r])
  | none => pure acc

/-- The `for rec in lst` loop of `parse_funds_from_metrics`. -/
def parseFundsList (elems : List Json) : Except Unit (List FlowRec) :=
  elems.foldlM fundsStep []

/-- `parse_funds_from_metrics` from the source: walk
`(payload.get("data") or {}).get("list") or []`, skip records whose
`dailyNetInflow.status == 3`, coerce values with `fnum`. -/
def parse_funds_from_metrics (payload : Json) : Except Unit (List FlowRec) := do
  parseFundsList (← fundsElems payload)

/-- `parse_aggregate_from_metrics` from the source: `(day, net_musd)` from
`data.dailyNetInflow`; a malformed `lastUpdateDate` raises (`strptime` is not
guarded here). -/
def parse_aggregate_from_metrics (payload : Json) : Except Unit (Option PDate × ℚ) := do
  let dataV ← pyGet payload "data"
  let dnV ← pyGet (pyOr dataV (.obj [])) "dailyNetInflow"
  let dn := pyOr dnV (.obj [])
  let lud ← pyGet dn "lastUpdateDate"
  let day : Option PDate ←
    if lud.truthy then
      match lud with
      | .str s =>
        match strpYMDdash s with
        | some d => pure (some d)
        | none => .error ()      -- ValueError from strptime
      | _ => .error ()           -- TypeError from strptime
    else pure none
  let value ← pyGet dn "value"
  let net : ℚ := if pyIsNone (some value) then 0 else fnum value / 1000000
  return (day, net)

/-! ### `run_one` and the main control flow of the flow sentry -/

/-- `run_one` from the source.  The upstream fetch is passed in as an
`Except` (an exception from `fetch_metrics` propagates before `used_calls`
is ever returned).  Yields `(embed?, used_calls, dedup_date?)`. -/
def run_one (fetch : Except Unit Json) (tag : String) (yday : PDate)
    (force_send : Bool) (top_n : Nat) :
    Except Unit (Option Embed × Nat × Option String) :=
  match fetch with
  | .error e => .error e
  | .ok payload =>
    match parse_funds_from_metrics payload with
    | .error e => .error e
    | .ok items =>
      if !items.isEmpty then
        let flows := items.map (fun it => (it.name, it.net / 1000000))
        let title := fmtDBY yday ++ " (" ++ tag ++ ")"
        .ok (some (build_embed title flows top_n), 1, some (fmtYMD yday))
      else
        match parse_aggregate_from_metrics payload with
        | .error e => .error e
        | .ok (day, net_musd) =>
          if day = some yday || force_send then
            let target := day.getD yday
            let flows := [("Total (All " ++ tag ++ " ETFs)", net_musd)]
            let title := fmtDBY target ++ " (" ++ tag ++ ", aggregate)"
            .ok (some (build_embed title flows top_n), 1, some (fmtYMD target))
          else
            .ok (none, 1, none)

/-- Outcome of one run of `main` in the flow sentry.  `quotaSkip`: the
pre-flight quota check failed (a warning is posted, nothing saved);
`sent st embeds`: the run completed and `save_state` wrote `st`;
`failed`: an exception propagated (no `save_state`). -/
inductive RunResult where
  | quotaSkip : RunResult
  | sent : SosoState → List Embed → RunResult
  | failed : RunResult
deriving DecidableEq, Repr

/-- The state on disk after a run: only a completed run persists its state. -/
def persistedState (r : RunResult) (s0 : SosoState) : SosoState :=
  match r with
  | .sent st _ => st
  | _ => s0

/-- Post-BTC/ETH wrap-up of `main`: the Discord post happens only when there
are embeds; a delivery failure raises before `save_state`. -/
def finishRun (st : SosoState) (embeds : List Embed) (discordOk : Bool) : RunResult :=
  if !embeds.isEmpty && !discordOk then .failed else .sent st embeds

/-- The BTC dedup check of `main`: `if emb and state.get("last_btc_day") != dt`,
collecting the embed and updating the state. -/
def dedupBtc (st : SosoState) (emb : Option Embed) (dt : Option String) :
    SosoState × List Embed :=
  match emb with
  | some e =>
    if st.last_btc_day ≠ dt then ({ st with last_btc_day := dt }, [e])
    else (st, [])
  | none => (st, [])

/-- The ETH dedup check of `main`. -/
def dedupEth (st : SosoState) (emb : Option Embed) (dt : Option String) :
    SosoState × List Embed :=
  match emb with
  | some e =>
    if st.last_eth_day ≠ dt then ({ st with last_eth_day := dt }, [e])
    else (st, [])
  | none => (st, [])

/-- `main` from the flow sentry, with the environment and the network
abstracted into parameters: the two fetch results, the `SEND_ETH` /
`SOSO_FUNDS_API` / `FORCE_SEND` toggles, whether the Discord webhook post
succeeds, the JST-yesterday date, the current UTC year-month, the monthly
ceiling and the display cap.  Faithful to the source order: quota pre-check
(worst case two calls per asset when the funds API is configured), BTC
`run_one` then `add_api_calls`, dedup check against `last_btc_day`, same for
ETH, one webhook post, `save_state`. -/
def mainFlow (state0 : SosoState) (btcFetch ethFetch : Except Unit Json)
    (send_eth funds_api_set force_send discordOk : Bool)
    (yday : PDate) (ym : String) (maxCalls top_n : Nat) : RunResult :=
  if !(can_use_api state0
        ((if funds_api_set then 2 else 1) * (1 + (if send_eth then 1 else 0)))
        ym maxCalls) then .quotaSkip
  else
    match run_one btcFetch "BTC" yday force_send top_n with
    | .error _ => .failed
    | .ok (emb, used, dt) =>
      let r1 := dedupBtc (add_api_calls state0 used ym) emb dt
      if send_eth then
        match run_one ethFetch "ETH" yday force_send top_n with
        | .error _ => .failed
        | .ok (emb2, used2, dt2) =>
          let r2 := dedupEth (add_api_calls r1.1 used2 ym) emb2 dt2
          finishRun r2.1 (r1.2 ++ r2.2) discordOk
      else finishRun r1.1 r1.2 discordOk

/-! ### The cumulative-chart script -/

/-- `_extract_list` from the chart source: pull the history array out of a
payload of varying shape. -/
def extract_list (payload : Json) : List Json :=
  match payload with
  | .arr xs => xs
  | .obj kvs =>
    let data := (lookup "data" kvs).getD .null
    match data with
    | .arr xs => xs
    | _ =>
      let fromData : Option (List Json) :=
        match data with
        | .obj dkvs =>
          match ["list", "records", "items", "rows"].findSome? (fun k =>
              match lookup k dkvs with
              | some (.arr xs) => some xs
              | _ => none) with
          | some xs => some xs
          | none => none
        | _ => none
      match fromData with
      | some xs => xs
      | none =>
        match ["list", "records", "items", "rows"].findSome? (fun k =>
            match lookup k kvs with
            | some (.arr xs) => some xs
            | _ => none) with
        | some xs => xs
        | none => []
  | _ => []

/-- `_last_hist_date` applied to an already-fetched payload: collect every
truthy `date` field (elements must be dicts — `it.get` raises otherwise —
and truthy dates must be strings parsing as `%Y-%m-%d`, since this
`strptime` is unguarded), then take the maximum, `None` when no dates. -/
def lastHistDate (payload : Json) : Except Unit (Option PDate) := do
  let lst := extract_list payload
  let dates ← lst.foldlM (fun (acc : List PDate) it => do
    let d ← pyGet it "date"
    if d.truthy then
      match d with
      | .str s =>
        match strpYMDdash s with
        | some pd => pure (acc ++ [pd])
        | none => .error ()
      | _ => .error ()
    else pure acc) []
  match dates with
  | [] => return none
  | d :: rest => return some (rest.foldl (fun m x => if m.ble x then x else m) d)

/-- `is_confirmed_yday` from the chart source, over already-fetched history
payloads: `(latest >= yday, yday_str, latest_str)`, where `latest` is the
maximum of the per-asset latest dates (ETH only when `send_eth`);
`(False, yday_str, "N/A")` when no asset produced a date. -/
def is_confirmed_yday (btcHist ethHist : Json) (send_eth : Bool) (yday : PDate) :
    Except Unit (Bool × String × String) :=
  match lastHistDate btcHist with
  | .error e => .error e
  | .ok ld_btc =>
    match (if send_eth then lastHistDate ethHist else .ok none) with
    | .error e => .error e
    | .ok ld_eth =>
      match [ld_btc, ld_eth].filterMap id with
      | [] => .ok (false, fmtYMD yday, "N/A")
      | c :: rest =>
        let latest := rest.foldl (fun m x => if m.ble x then x else m) c
        .ok (yday.ble latest, fmtYMD yday, fmtYMD latest)

/-- Python `float(x)` on a payload value (`TypeError` on non-numbers other
than numeric strings and booleans). -/
def pyFloatOf : Json → Except Unit ℚ
  | .num q => .ok q
  | .bool b => .ok (if b then 1 else 0)
  | .str s => match pyFloat s with | some q => .ok q | none => .error ()
  | _ => .error ()

/-- Sort relation for `sorted(packed, key=lambda x: x[0])`. -/
def histRel (a b : PDate × ℚ × ℚ) : Prop := PDate.ble a.1 b.1 = true

instance : DecidableRel histRel := fun a b => inferInstanceAs (Decidable (_ = true))

instance : IsTotal (PDate × ℚ × ℚ) histRel :=
  ⟨fun a b => by
    unfold histRel PDate.ble
    split_ifs <;> simp only [decide_eq_true_eq] <;> omega⟩

instance : IsTrans (PDate × ℚ × ℚ) histRel :=
  ⟨fun a b c h1 h2 => by
    unfold histRel PDate.ble at h1 h2 ⊢
    split_ifs at h1 h2 ⊢ <;> simp only [decide_eq_true_eq] at h1 h2 ⊢ <;> omega⟩

/-- `fetch_history` applied to an already-fetched payload: keep dict rows
having a truthy `date` and non-`None` `cumNetInflow`/`totalNetInflow`,
parse/scale them, then sort by date.  Non-dict rows are skipped silently
(unlike `_last_hist_date`); a truthy malformed date or a non-numeric value
raises. -/
def fetch_history (payload : Json) : Except Unit (List PDate × List ℚ × List ℚ) := do
  let lst := extract_list payload
  let rows ← lst.foldlM (fun (acc : List (PDate × ℚ × ℚ)) row => do
    match row with
    | .obj kvs =>
      let d := (lookup "date" kvs).getD .null
      let cum := (lookup "cumNetInflow" kvs).getD .null
      let day := (lookup "totalNetInflow" kvs).getD .null
      if !d.truthy || pyIsNone (some cum) || pyIsNone (some day) then
        pure acc
      else do
        let pd ← match d with
          | .str s => match strpYMDdash s with
            | some pd => pure pd
            | none => .error ()
          | _ => .error ()
        let cq ← pyFloatOf cum
        let dq ← pyFloatOf day
        pure (acc ++ [(pd, cq / 1000000000, dq / 1000000000)])
    | _ => pure acc) []
  let packed := List.insertionSort histRel rows
  return (packed.map (fun t => t.1), packed.map (fun t => t.2.1), packed.map (fun t => t.2.2))

/-- The message content assembled by the chart `main` (the PNG chart itself
is an external artifact; the text carries the last date and the four last
series values). -/
structure ChartMsg where
  last_date : String
  btc_cum_last_b : ℚ
  eth_cum_last_b : ℚ
  btc_day_last_b : ℚ
  eth_day_last_b : ℚ
deriving DecidableEq, Repr

/-- `series[-1]` (IndexError on an empty list). -/
def lastOf {α : Type} : List α → Except Unit α
  | [] => .error ()
  | x :: rest => .ok ((x :: rest).getLast (by simp))

/-- `main` from the chart source over already-fetched payloads: if
`is_confirmed_yday` is false, skip silently (no message); otherwise fetch
both histories (ETH unconditionally), and report the last entries with
`last_date = max(btc_d[-1], eth_d[-1])`. -/
def chartMain (btcHist ethHist : Json) (send_eth : Bool) (yday : PDate) :
    Except Unit (Option ChartMsg) :=
  match is_confirmed_yday btcHist ethHist send_eth yday with
  | .error e => .error e
  | .ok (confirmed, _, _) =>
    if !confirmed then .ok none
    else
      match fetch_history btcHist with
      | .error e => .error e
      | .ok (btc_d, btc_cum, btc_day) =>
        match fetch_history ethHist with
        | .error e => .error e
        | .ok (eth_d, eth_cum, eth_day) =>
          match lastOf btc_d, lastOf eth_d, lastOf btc_cum, lastOf eth_cum,
              lastOf btc_day, lastOf eth_day with
          | .ok lb, .ok le, .ok bc, .ok ec, .ok bd, .ok ed =>
            .ok (some ⟨fmtYMD (if lb.ble le then le else lb), bc, ec, bd, ed⟩)
          | _, _, _, _, _, _ => .error ()

/-! ### Claim propositions (statements of spec claims, used for
counterexamples) and auxiliary predicates -/

/-- All of `fnum`'s string parse routes fail (after normalization and comma
stripping): not blank/dash, parenthesized with unparsable interior or else
neither the digit/suffix regex nor a direct `float` parse succeeds. -/
def fnumFailsAll (s : String) : Bool :=
  let t := cleanChars s
  !isBlankDash t &&
    (if parenShaped t then (pyFloat (String.mk ((t.drop 1).dropLast))).isNone
     else (suffixMatch t).isNone && (pyFloat (String.mk t)).isNone)

/-- Claim C1 at one mapping node, as the spec states it: if the node
contains at least one candidate date key whose value parses as a date, and
at least one candidate item-array key whose value is a sequence, then a
DayGroup is emitted for the node iff at least one record was produced from
such a sequence. -/
def claimC1At (kvs : List (String × Json)) : Prop :=
  ((∃ k v, k ∈ DATE_KEYS ∧ lookup k kvs = some v ∧ (to_date v).isSome) ∧
   (∃ k xs, k ∈ ITEM_KEYS ∧ lookup k kvs = some (.arr xs))) →
  ((∃ g, try_make_row kvs = some g) ↔
   (∃ k xs, k ∈ ITEM_KEYS ∧ lookup k kvs = some (.arr xs) ∧ rowRecords xs ≠ []))

/-- Claim C4, as the spec states it: `is_confirmed_yday` returns true iff at
least one tracked asset's history has the TARGET date as its maximum date. -/
def claimC4At (btcHist ethHist : Json) (send_eth : Bool) (yday : PDate) : Prop :=
  ∀ b ys ls, is_confirmed_yday btcHist ethHist send_eth yday = .ok (b, ys, ls) →
    (b = true ↔ (lastHistDate btcHist = .ok (some yday) ∨
                 (send_eth = true ∧ lastHistDate ethHist = .ok (some yday))))

/-- Claim C6, as the spec states it, at one run in which the quota pre-check
passes (so the BTC call is actually issued): the call's usage is recorded in
the persisted monthly counter regardless of the call's success or failure,
so the persisted bucket grows by at least one. -/
def claimC6At (state0 : SosoState) (btcFetch ethFetch : Except Unit Json)
    (se fa fo dok : Bool) (yday : PDate) (ym : String) (mc tn : Nat) : Prop :=
  getCalls state0 ym + 1 ≤
    getCalls
      (persistedState (mainFlow state0 btcFetch ethFetch se fa fo dok yday ym mc tn) state0)
      ym

/-- Claim C9, as the spec states it: records with nonzero net are shown;
when every record's net is exactly zero, the first 6 records by position are
shown instead (the multiset of shown names matches that rule). -/
def claimC9At (title : String) (flows : List (String × ℚ)) (top_n : Nat) : Prop :=
  ((build_embed title flows top_n).fields.map (fun f => f.name)).Perm
    ((if flows.all (fun p => p.2 == 0) then flows.take 6
      else flows.filter (fun p => p.2 ≠ 0)).map (fun p => p.1))

/-- `dailyNetInflow.status == 3` on one record of `data.list` (false when
the record is not a dict or the probed sub-object is not a dict — those
records raise instead of being skipped). -/
def isStatus3 : Json → Bool
  | .obj kvs =>
    (match pyOr ((lookup "dailyNetInflow" kvs).getD .null) (.obj []) with
     | .obj dkvs => isNum3 ((lookup "status" dkvs).getD .null)
     | _ => false)
  | _ => false

/-- Dict-style lookup on the `by_date` association list. -/
def lookupD (d : PDate) (acc : List (PDate × List FlowRec)) : List FlowRec :=
  ((acc.find? (fun p => p.1 = d)).map (fun p => p.2)).getD []

/-! ### Helper lemmas -/

theorem PDate.ble_iff {a b : PDate} :
    a.ble b = true ↔
      (a.y < b.y ∨ (a.y = b.y ∧ (a.m < b.m ∨ (a.m = b.m ∧ a.d ≤ b.d)))) := by
  unfold PDate.ble
  split_ifs with h1 h2 <;> simp only [decide_eq_true_eq] <;> omega

theorem PDate.blt_iff {a b : PDate} :
    a.blt b = true ↔
      (a.y < b.y ∨ (a.y = b.y ∧ (a.m < b.m ∨ (a.m = b.m ∧ a.d < b.d)))) := by
  unfold PDate.blt
  split_ifs with h1 h2 <;> simp only [decide_eq_true_eq] <;> omega

theorem PDate.ble_total (a b : PDate) : a.ble b = true ∨ b.ble a = true := by
  simp only [PDate.ble_iff]; omega

theorem PDate.ble_trans {a b c : PDate} (h1 : a.ble b = true) (h2 : b.ble c = true) :
    a.ble c = true := by
  simp only [PDate.ble_iff] at *; omega

theorem PDate.ble_antisymm {a b : PDate} (h1 : a.ble b = true) (h2 : b.ble a = true) :
    a = b := by
  simp only [PDate.ble_iff] at h1 h2
  have hy : a.y = b.y := by omega
  have hm : a.m = b.m := by omega
  have hd : a.d = b.d := by omega
  rcases a with ⟨ay, am, ad⟩; rcases b with ⟨by_, bm, bd⟩
  simp_all

theorem PDate.blt_of_ble_ne {a b : PDate} (h1 : a.ble b = true) (h2 : a ≠ b) :
    a.blt b = true := by
  simp only [PDate.ble_iff] at h1
  simp only [PDate.blt_iff]
  have hne : ¬(a.y = b.y ∧ a.m = b.m ∧ a.d = b.d) := by
    intro ⟨hy, hm, hd⟩
    apply h2
    rcases a with ⟨ay, am, ad⟩; rcases b with ⟨by_, bm, bd⟩
    simp_all
  omega



theorem bumpCalls_get_same (l : List (String × Nat)) (ym : String) (used : Nat) :
    (((bumpCalls l ym used).find? (fun p => p.1 == ym)).map (fun p => p.2)).getD 0
      = ((l.find? (fun p => p.1 == ym)).map (fun p => p.2)).getD 0 + used := by
  induction l with
  | nil => simp [bumpCalls]
  | cons hd tl ih =>
    obtain ⟨k, v⟩ := hd
    by_cases hk : k = ym
    · subst hk
      simp [bumpCalls, List.find?]
    · simp only [bumpCalls, if_neg hk, List.find?]
      have hbeq : (k == ym) = false := by simp [hk]
      simp [hbeq, ih]

theorem bumpCalls_get_mono (l : List (String × Nat)) (ym ym2 : String) (used : Nat) :
    ((l.find? (fun p => p.1 == ym2)).map (fun p => p.2)).getD 0
      ≤ (((bumpCalls l ym used).find? (fun p => p.1 == ym2)).map (fun p => p.2)).getD 0 := by
  induction l with
  | nil =>
    simp only [bumpCalls, List.find?]
    by_cases h : ym = ym2 <;> simp [h]
  | cons hd tl ih =>
    obtain ⟨k, v⟩ := hd
    by_cases hk : k = ym
    · subst hk
      by_cases h2 : k = ym2
      · subst h2; simp [bumpCalls, List.find?]
      · have hbeq : (k == ym2) = false := by simp [h2]
        simp [bumpCalls, List.find?, hbeq]
    · by_cases h2 : k = ym2
      · subst h2
        simp [bumpCalls, if_neg hk, List.find?]
      · have hbeq : (k == ym2) = false := by simp [h2]
        simp [bumpCalls, if_neg hk, List.find?, hbeq, ih]

/-- `getCalls` only reads `monthly_calls`, which dedup updates leave alone. -/
theorem getCalls_set_btc (s : SosoState) (x : Option String) (ym : String) :
    getCalls { s with last_btc_day := x } ym = getCalls s ym := rfl

theorem getCalls_set_eth (s : SosoState) (x : Option String) (ym : String) :
    getCalls { s with last_eth_day := x } ym = getCalls s ym := rfl

theorem getCalls_add (s : SosoState) (used : Nat) (ym : String) :
    getCalls (add_api_calls s used ym) ym = getCalls s ym + used := by
  unfold getCalls add_api_calls
  exact bumpCalls_get_same s.monthly_calls ym used

/-! ### Claim theorems -/

/-- C7: `can_use_api` returns false exactly when the current month's used
count plus the needed count exceeds the ceiling (default 1000), and true
otherwise; `add_api_calls` adds the used count to the current month's bucket
and never decreases any month's counter. -/
theorem quota_spec :
    (∀ (s : SosoState) (needed : Nat) (ym : String) (maxCalls : Nat),
      can_use_api s needed ym maxCalls = false ↔ maxCalls < getCalls s ym + needed) ∧
    (∀ (s : SosoState) (used : Nat) (ym : String),
      getCalls (add_api_calls s used ym) ym = getCalls s ym + used) ∧
    (∀ (s : SosoState) (used : Nat) (ym ym2 : String),
      getCalls s ym2 ≤ getCalls (add_api_calls s used ym) ym2) := by
  refine ⟨fun s needed ym maxCalls => ?_, fun s used ym => getCalls_add s used ym,
    fun s used ym ym2 => ?_⟩
  · unfold can_use_api
    simp only [decide_eq_false_iff_not, not_le]
  · unfold getCalls add_api_calls
    exact bumpCalls_get_mono s.monthly_calls ym ym2 used

/-- C3: the numeric coercion `fnum` is total on `None`, numbers and strings
(it is a total Lean function), with `fnum(None) = 0`, `fnum("") = 0`,
`fnum("(12.5)") = -12.5`, `fnum("1.2b") = 1200`, and every string input
failing all supported parse routes coerces to 0. -/
theorem fnum_coercion_spec :
    fnum .null = 0 ∧
    (∀ q : ℚ, fnum (.num q) = q) ∧
    fnum (.str "") = 0 ∧
    fnum (.str "(12.5)") = -25/2 ∧
    fnum (.str "1.2b") = 1200 ∧
    (∀ s : String, fnumFailsAll s = true → fnum (.str s) = 0) := by
  refine ⟨rfl, fun q => rfl, by decide, by with_unfolding_all decide,
    by with_unfolding_all decide, ?_⟩
  intro s h
  unfold fnumFailsAll at h
  simp only [Bool.and_eq_true, Bool.not_eq_true'] at h
  obtain ⟨hb, hrest⟩ := h
  show (if isBlankDash (cleanChars (pyStr (.str s))) then (0 : ℚ)
        else if parenShaped (cleanChars (pyStr (.str s))) then
          match pyFloat (String.mk (((cleanChars (pyStr (.str s))).drop 1).dropLast)) with
          | some q => -q
          | none => 0
        else
          match suffixMatch (cleanChars (pyStr (.str s))) with
          | some (q, isB) => if isB then q * 1000 else q
          | none => (pyFloat (String.mk (cleanChars (pyStr (.str s))))).getD 0) = 0
  have hps : pyStr (.str s) = s := rfl
  rw [hps] at *
  rw [if_neg (by simp [hb])]
  by_cases hp : parenShaped (cleanChars s)
  · rw [if_pos hp]
    rw [if_pos hp] at hrest
    have : pyFloat (String.mk (((cleanChars s).drop 1).dropLast)) = none :=
      Option.isNone_iff_eq_none.mp hrest
    rw [this]
  · rw [if_neg hp]
    rw [if_neg hp] at hrest
    simp only [Bool.and_eq_true] at hrest
    have h1 : suffixMatch (cleanChars s) = none := Option.isNone_iff_eq_none.mp hrest.1
    have h2 : pyFloat (String.mk (cleanChars s)) = none := Option.isNone_iff_eq_none.mp hrest.2
    rw [h1, h2]
    rfl

/-- C3 witness: a concrete string failing all parse routes coerces to 0. -/
theorem fnum_coercion_spec_witness :
    fnumFailsAll "12a34" = true ∧ fnum (.str "12a34") = 0 :=
  ⟨by decide, fnum_coercion_spec.2.2.2.2.2 "12a34" (by decide)⟩

/-- C8: `build_embed` computes the footer net total as the sum of ALL net
values (display capping does not affect it) and selects the color by the
total's sign: positive, negative, or neutral. -/
theorem build_embed_total_color (title : String) (flows : List (String × ℚ)) (top_n : Nat) :
    (build_embed title flows top_n).footerNet = (flows.map (fun p => p.2)).sum ∧
    (0 < (flows.map (fun p => p.2)).sum →
      (build_embed title flows top_n).color = 0x2ecc71) ∧
    ((flows.map (fun p => p.2)).sum < 0 →
      (build_embed title flows top_n).color = 0xe74c3c) ∧
    ((flows.map (fun p => p.2)).sum = 0 →
      (build_embed title flows top_n).color = 0x95a5a6) := by
  have hc : (build_embed title flows top_n).color
      = (if (flows.map (fun p => p.2)).sum > 0 then 0x2ecc71
         else if (flows.map (fun p => p.2)).sum < 0 then 0xe74c3c else 0x95a5a6) := rfl
  refine ⟨rfl, ?_, ?_, ?_⟩ <;> intro h <;> rw [hc]
  · rw [if_pos h]
  · rw [if_neg (by linarith), if_pos h]
  · rw [if_neg (by simp [h]), if_neg (by simp [h])]

/-- C8 witness: a concrete positive flow list gets the positive color and
the full-sum footer. -/
theorem build_embed_total_color_witness :
    (build_embed "t" [("A", 1), ("B", -2), ("C", 3)] 1).color = 0x2ecc71 ∧
    (build_embed "t" [("A", 1), ("B", -2), ("C", 3)] 1).footerNet
      = ([("A", (1 : ℚ)), ("B", -2), ("C", 3)].map (fun p => p.2)).sum :=
  ⟨(build_embed_total_color "t" [("A", 1), ("B", -2), ("C", 3)] 1).2.1
      (by with_unfolding_all decide),
   (build_embed_total_color "t" [("A", 1), ("B", -2), ("C", 3)] 1).1⟩

/-- C9 counterexample: with flows `[("A",1),("B",0)]` and cap 6 the code
renders BOTH fields (no zero-filtering), while the claimed display rule
keeps only the nonzero record A. -/
theorem claimC9_false : ¬ claimC9At "t" [("A", 1), ("B", 0)] 6 := by
  unfold claimC9At
  with_unfolding_all decide

/-- C9 (amended): `build_embed` applies no zero-filtering at all — after a
stable sort by descending absolute net it always renders the first `top_n`
records (`SHOW_TOP_N`, default 24), so the number of fields is
`min top_n flows.length`; in particular for `[("A",0),("B",0)]` with cap 6
both A and B render, with total 0 and the neutral color. -/
theorem build_embed_no_zero_filter :
    (∀ (title : String) (flows : List (String × ℚ)) (top_n : Nat),
      (build_embed title flows top_n).fields.length = min top_n flows.length) ∧
    ((build_embed "t" [("A", 0), ("B", 0)] 6).fields.map (fun f => f.name) = ["A", "B"] ∧
     (build_embed "t" [("A", 0), ("B", 0)] 6).footerNet = 0 ∧
     (build_embed "t" [("A", 0), ("B", 0)] 6).color = 0x95a5a6) := by
  constructor
  · intro title flows top_n
    have h1 : (build_embed title flows top_n).fields.length
        = ((List.insertionSort absGe flows).take top_n).length := by
      simp [build_embed]
    rw [h1, List.length_take, (List.perm_insertionSort absGe flows).length_eq]
  · exact ⟨by with_unfolding_all decide, by with_unfolding_all decide,
      by with_unfolding_all decide⟩

/-- A record with `dailyNetInflow.status == 3` is skipped without error. -/
theorem parseFundRec_status3 {rec : Json} (h : isStatus3 rec = true) :
    parseFundRec rec = .ok none := by
  cases rec with
  | obj kvs =>
    have h' : (match pyOr ((lookup "dailyNetInflow" kvs).getD .null) (.obj []) with
               | Json.obj dkvs => isNum3 ((lookup "status" dkvs).getD .null)
               | _ => false) = true := h
    cases hdn : pyOr ((lookup "dailyNetInflow" kvs).getD .null) (.obj []) with
    | obj dkvs =>
      rw [hdn] at h'
      have h'' : isNum3 ((lookup "status" dkvs).getD .null) = true := h'
      unfold parseFundRec
      simp only [pyGet, Except.bind, bind, hdn]
      simp [h'', pure, Except.pure]
    | null => rw [hdn] at h'; exact absurd h' (by simp)
    | bool b => rw [hdn] at h'; exact absurd h' (by simp)
    | num q => rw [hdn] at h'; exact absurd h' (by simp)
    | str s => rw [hdn] at h'; exact absurd h' (by simp)
    | arr xs => rw [hdn] at h'; exact absurd h' (by simp)
  | null => exact absurd h (by simp [isStatus3])
  | bool b => exact absurd h (by simp [isStatus3])
  | num q => exact absurd h (by simp [isStatus3])
  | str s => exact absurd h (by simp [isStatus3])
  | arr xs => exact absurd h (by simp [isStatus3])

/-- Dropping the skipped (status-3) records from the element list does not
change the result of the record loop. -/
theorem foldFunds_filter (elems : List Json) (acc : List FlowRec) :
    (elems.filter (fun e => !isStatus3 e)).foldlM fundsStep acc
      = elems.foldlM fundsStep acc := by
  induction elems generalizing acc with
  | nil => rfl
  | cons e tl ih =>
    by_cases hs : isStatus3 e
    · have hfe : fundsStep acc e = .ok acc := by
        unfold fundsStep
        simp [parseFundRec_status3 hs, Except.bind, bind, pure, Except.pure]
      have hfilter : (e :: tl).filter (fun e => !isStatus3 e)
          = tl.filter (fun e => !isStatus3 e) := by
        simp [List.filter, hs]
      rw [hfilter, List.foldlM_cons, hfe]
      simp only [Except.bind, bind]
      exact ih acc
    · have hfilter : (e :: tl).filter (fun e => !isStatus3 e)
          = e :: tl.filter (fun e => !isStatus3 e) := by
        simp [List.filter, hs]
      rw [hfilter, List.foldlM_cons, List.foldlM_cons]
      cases hfe : fundsStep acc e with
      | error err => simp [Except.bind, bind, hfe]
      | ok acc2 => simp only [Except.bind, bind, hfe]; exact ih acc2

/-- C10: `parse_funds_from_metrics` silently excludes every record of
`data.list` whose `dailyNetInflow.status` equals 3 — the output is exactly
what the loop produces on the other records, and a status-3 record alone
contributes no FlowRecord, even though it is present in the list. -/
theorem parse_funds_status3_spec :
    (∀ (payload : Json) (elems : List Json), fundsElems payload = .ok elems →
      parse_funds_from_metrics payload
        = parseFundsList (elems.filter (fun e => !isStatus3 e))) ∧
    (∀ rec : Json, isStatus3 rec = true → parseFundsList [rec] = .ok []) := by
  constructor
  · intro payload elems h
    unfold parse_funds_from_metrics
    simp only [Except.bind, bind, h]
    unfold parseFundsList
    exact (foldFunds_filter elems []).symm
  · intro rec h
    unfold parseFundsList
    rw [List.foldlM_cons]
    unfold fundsStep
    simp [parseFundRec_status3 h, Except.bind, bind, pure, Except.pure]

/-- C10 witness: a payload whose `data.list` holds a status-3 record (GBTC)
and a live record (IBIT) parses to the loop's result on the non-excluded
records only. -/
theorem parse_funds_status3_spec_witness :
    parse_funds_from_metrics (.obj [("data", .obj [("list", .arr [
        .obj [("ticker", .str "GBTC"),
              ("dailyNetInflow", .obj [("status", .num 3), ("value", .num 100)])],
        .obj [("ticker", .str "IBIT"),
              ("dailyNetInflow", .obj [("status", .num 1), ("value", .num 5)])]])])])
      = parseFundsList
          (([.obj [("ticker", .str "GBTC"),
              ("dailyNetInflow", .obj [("status", .num 3), ("value", .num 100)])],
            .obj [("ticker", .str "IBIT"),
              ("dailyNetInflow", .obj [("status", .num 1), ("value", .num 5)])]] :
            List Json).filter (fun e => !isStatus3 e)) :=
  parse_funds_status3_spec.1 _ _ (by with_unfolding_all rfl)

/-- C1 counterexample: the node
`{"date": "garbage", "tradingDay": "2024-03-14", "items": [...]}` contains a
candidate date key (`tradingDay`) whose value parses, and an item-array key
with a record-producing sequence, yet no DayGroup is emitted: `next` commits
to the FIRST present date key (`date`), whose value does not parse. -/
theorem claimC1_false :
    ¬ claimC1At [("date", .str "garbage"), ("tradingDay", .str "2024-03-14"),
      ("items", .arr [.obj [("ticker", .str "A"), ("net", .num 1)]])] := by
  intro h
  have h1 : ∃ k v, k ∈ DATE_KEYS ∧
      lookup k [("date", Json.str "garbage"), ("tradingDay", .str "2024-03-14"),
        ("items", .arr [.obj [("ticker", .str "A"), ("net", .num 1)]])] = some v ∧
      (to_date v).isSome :=
    ⟨"tradingDay", .str "2024-03-14", by decide, by with_unfolding_all rfl, by decide⟩
  have h2 : ∃ k xs, k ∈ ITEM_KEYS ∧
      lookup k [("date", Json.str "garbage"), ("tradingDay", .str "2024-03-14"),
        ("items", .arr [.obj [("ticker", .str "A"), ("net", .num 1)]])] = some (.arr xs) :=
    ⟨"items", [.obj [("ticker", .str "A"), ("net", .num 1)]], by decide,
      by with_unfolding_all rfl⟩
  obtain ⟨g, hg⟩ := (h ⟨h1, h2⟩).mpr
    ⟨"items", [.obj [("ticker", .str "A"), ("net", .num 1)]], by decide,
      by with_unfolding_all rfl, by with_unfolding_all decide⟩
  have hnone : try_make_row [("date", Json.str "garbage"),
      ("tradingDay", .str "2024-03-14"),
      ("items", .arr [.obj [("ticker", .str "A"), ("net", .num 1)]])] = none := by
    with_unfolding_all rfl
  rw [hnone] at hg
  exact Option.noConfusion hg

/-- C1 (amended): a DayGroup is emitted at a mapping node iff the FIRST
present candidate date key (in list order) holds a value parsing as a date
AND the first present item-array key holding a sequence yields at least one
record; the emitted group carries that date and exactly those records. -/
theorem try_make_row_first_key_spec (kvs : List (String × Json)) :
    ((∃ g, try_make_row kvs = some g) ↔
      (∃ v d xs, firstDateVal kvs = some v ∧ to_date v = some d ∧
        firstItemsVal kvs = some xs ∧ rowRecords xs ≠ [])) ∧
    (∀ g, try_make_row kvs = some g →
      ∃ v xs, firstDateVal kvs = some v ∧ firstItemsVal kvs = some xs ∧
        to_date v = some g.date ∧ g.items = rowRecords xs) := by
  unfold try_make_row
  cases hfd : firstDateVal kvs with
  | none => simp
  | some v =>
    cases hd : to_date v with
    | none => simp [Option.bind, hd]
    | some d =>
      simp only [Option.bind, hd]
      cases hit : firstItemsVal kvs with
      | none => simp
      | some xs =>
        dsimp only
        by_cases hxs : xs.isEmpty
        · rw [if_pos hxs]
          have hxs' : xs = [] := by simpa [List.isEmpty_iff] using hxs
          subst hxs'
          simp [rowRecords]
        · rw [if_neg hxs]
          by_cases hout : (rowRecords xs).isEmpty
          · rw [if_pos hout]
            have hout' : rowRecords xs = [] := by simpa [List.isEmpty_iff] using hout
            simp [hout']
          · rw [if_neg hout]
            have hout' : rowRecords xs ≠ [] := by simpa [List.isEmpty_iff] using hout
            constructor
            · constructor
              · intro _
                exact ⟨v, d, xs, rfl, hd, rfl, hout'⟩
              · intro _
                exact ⟨⟨d, rowRecords xs⟩, rfl⟩
            · intro g hg
              obtain rfl : (⟨d, rowRecords xs⟩ : Row) = g := Option.some.inj hg
              exact ⟨v, xs, rfl, rfl, hd, rfl⟩

/-- C1 witness: a node whose first present date key parses and whose first
item list yields a record does emit a DayGroup. -/
theorem try_make_row_first_key_spec_witness :
    ∃ g, try_make_row [("date", .str "2024-03-14"),
      ("items", .arr [.obj [("ticker", .str "A"), ("net", .num 1)]])] = some g :=
  (try_make_row_first_key_spec _).1.mpr
    ⟨.str "2024-03-14", ⟨2024, 3, 14⟩,
      [.obj [("ticker", .str "A"), ("net", .num 1)]],
      by with_unfolding_all rfl, by with_unfolding_all rfl,
      by with_unfolding_all rfl, by with_unfolding_all decide⟩

theorem PDate.ble_refl (a : PDate) : a.ble a = true := by
  simp [PDate.ble_iff]

/-- The `max` of a nonempty list of dates via `foldl`: it is an element and
an upper bound. -/
theorem foldl_max_spec (c : PDate) (rest : List PDate) :
    (rest.foldl (fun m x => if m.ble x then x else m) c) ∈ c :: rest ∧
    ∀ d ∈ c :: rest, d.ble (rest.foldl (fun m x => if m.ble x then x else m) c) = true := by
  induction rest generalizing c with
  | nil => exact ⟨List.mem_singleton.mpr rfl, by simpa using PDate.ble_refl c⟩
  | cons hd tl ih =>
    rw [List.foldl_cons]
    obtain ⟨ihmem, ihub⟩ := ih (if c.ble hd then hd else c)
    have hstep : (if c.ble hd then hd else c) ∈ c :: hd :: tl := by
      by_cases hb : c.ble hd <;> simp [hb]
    constructor
    · rcases List.mem_cons.mp ihmem with heq | hmem
      · rw [heq]; exact hstep
      · exact List.mem_cons_of_mem _ (List.mem_cons_of_mem _ hmem)
    · intro d hd_mem
      have hub0 := ihub (if c.ble hd then hd else c) (List.mem_cons_self _ _)
      rcases List.mem_cons.mp hd_mem with rfl | hd_mem2
      · by_cases hb : d.ble hd
        · rw [if_pos hb] at hub0 ⊢
          exact PDate.ble_trans hb hub0
        · rw [if_neg hb] at hub0 ⊢
          exact hub0
      rcases List.mem_cons.mp hd_mem2 with rfl | hd_mem3
      · by_cases hb : c.ble d
        · rw [if_pos hb] at hub0 ⊢
          exact hub0
        · rw [if_neg hb] at hub0 ⊢
          have hdc : d.ble c = true := (PDate.ble_total c d).resolve_left (by simpa using hb)
          exact PDate.ble_trans hdc hub0
      · exact ihub d (List.mem_cons_of_mem _ hd_mem3)

/-- C4 counterexample: with a single tracked asset (`SEND_ETH` off) whose
history maximum is 2024-03-16 and a target date of 2024-03-15,
`is_confirmed_yday` returns true although no tracked asset has the TARGET
date as its maximum — the code tests `latest >= yday`, not equality. -/
theorem claimC4_false :
    ¬ claimC4At (.obj [("data", .arr [.obj [("date", .str "2024-03-16")]])])
      (.arr []) false ⟨2024, 3, 15⟩ := by
  intro h
  have hres := h true "2024-03-15" "2024-03-16" (by with_unfolding_all rfl)
  rcases hres.mp rfl with hbtc | heth
  · have hcomp : lastHistDate (.obj [("data", .arr [.obj [("date", .str "2024-03-16")]])])
        = .ok (some ⟨2024, 3, 16⟩) := by with_unfolding_all rfl
    rw [hcomp] at hbtc
    exact absurd (Option.some.inj (Except.ok.inj hbtc)) (by decide)
  · exact Bool.noConfusion heth.1

/-- C4 (amended): `is_confirmed_yday` returns true iff some tracked asset's
history maximum date is ON OR AFTER the target date (`latest >= yday`); when
it returns false the chart run skips silently (no message, no error). -/
theorem is_confirmed_yday_ge_spec (btcHist ethHist : Json) (se : Bool) (yday : PDate)
    (ob oe : Option PDate)
    (hb : lastHistDate btcHist = .ok ob)
    (he : (if se then lastHistDate ethHist else .ok none) = .ok oe) :
    ∃ b ls, is_confirmed_yday btcHist ethHist se yday = .ok (b, fmtYMD yday, ls) ∧
      (b = true ↔ ∃ d ∈ ([ob, oe].filterMap id), yday.ble d = true) ∧
      (b = false → chartMain btcHist ethHist se yday = .ok none) := by
  have hicy : is_confirmed_yday btcHist ethHist se yday =
      (match [ob, oe].filterMap id with
       | [] => .ok (false, fmtYMD yday, "N/A")
       | c :: rest =>
         .ok (yday.ble (rest.foldl (fun m x => if m.ble x then x else m) c),
              fmtYMD yday,
              fmtYMD (rest.foldl (fun m x => if m.ble x then x else m) c))) := by
    unfold is_confirmed_yday
    rw [hb, he]
  rcases hc : [ob, oe].filterMap id with _ | ⟨c, rest⟩
  · rw [hc] at hicy
    dsimp only at hicy
    refine ⟨false, "N/A", hicy, ?_, ?_⟩
    · simp
    · intro _
      unfold chartMain
      rw [hicy]
      rfl
  · rw [hc] at hicy
    dsimp only at hicy
    set latest := rest.foldl (fun m x => if m.ble x then x else m) c with hlatest
    obtain ⟨hmem, hub⟩ := foldl_max_spec c rest
    refine ⟨yday.ble latest, fmtYMD latest, hicy, ?_, ?_⟩
    · constructor
      · intro hble
        exact ⟨latest, hmem, hble⟩
      · rintro ⟨d, hdmem, hyd⟩
        exact PDate.ble_trans hyd (hub d hdmem)
    · intro hfalse
      unfold chartMain
      rw [hicy, hfalse]
      rfl

/-- C4 witness: one asset whose maximum history date equals the target is
confirmed. -/
theorem is_confirmed_yday_ge_spec_witness :
    ∃ b ls, is_confirmed_yday (.obj [("data", .arr [.obj [("date", .str "2024-03-15")]])])
        (.arr []) false ⟨2024, 3, 15⟩ = .ok (b, fmtYMD ⟨2024, 3, 15⟩, ls) ∧
      (b = true ↔ ∃ d ∈ ([some ⟨2024, 3, 15⟩, none].filterMap id),
        (PDate.mk 2024 3 15).ble d = true) ∧
      (b = false → chartMain (.obj [("data", .arr [.obj [("date", .str "2024-03-15")]])])
        (.arr []) false ⟨2024, 3, 15⟩ = .ok none) :=
  is_confirmed_yday_ge_spec _ _ false ⟨2024, 3, 15⟩ (some ⟨2024, 3, 15⟩) none
    (by with_unfolding_all rfl) (by with_unfolding_all rfl)

/-- C5: with both histories topping out at 2024-03-14 and target 2024-03-15,
`isDateConfirmed` does return false — but the executable `main` then skips
silently, producing NO output at all: the stale-fallback reporting described
by the spec exists in the file only as a module-level fragment (lines
209-255) containing `return` outside any function, which is a `SyntaxError`
and was never integrated into `main`. -/
theorem chart_stale_day_skips :
    is_confirmed_yday
        (.obj [("data", .arr [.obj [("date", .str "2024-03-14"),
          ("cumNetInflow", .num 1000000000), ("totalNetInflow", .num 500000000)]])])
        (.obj [("data", .arr [.obj [("date", .str "2024-03-14"),
          ("cumNetInflow", .num 1000000000), ("totalNetInflow", .num 500000000)]])])
        true ⟨2024, 3, 15⟩
      = .ok (false, "2024-03-15", "2024-03-14") ∧
    chartMain
        (.obj [("data", .arr [.obj [("date", .str "2024-03-14"),
          ("cumNetInflow", .num 1000000000), ("totalNetInflow", .num 500000000)]])])
        (.obj [("data", .arr [.obj [("date", .str "2024-03-14"),
          ("cumNetInflow", .num 1000000000), ("totalNetInflow", .num 500000000)]])])
        true ⟨2024, 3, 15⟩
      = .ok none := by
  constructor
  · with_unfolding_all rfl
  · with_unfolding_all rfl


/-- C6 counterexample: a run whose quota pre-check passes issues the BTC
fetch; when that call fails (non-2xx after retries raises out of
`fetch_metrics`), the exception propagates before `add_api_calls` and
`save_state`, so the persisted monthly counter is NOT incremented. -/
theorem claimC6_false :
    ¬ claimC6At ⟨[], none, none⟩ (.error ()) (.error ()) false false false true
      ⟨2025, 1, 10⟩ "2025-01" 1000 24 := by
  unfold claimC6At
  with_unfolding_all decide

/-- `run_one` reports exactly one used call whenever it returns. -/
theorem run_one_used {fetch : Except Unit Json} {tag : String} {yday : PDate}
    {fo : Bool} {tn : Nat} {emb : Option Embed} {used : Nat} {dt : Option String}
    (h : run_one fetch tag yday fo tn = .ok (emb, used, dt)) : used = 1 := by
  unfold run_one at h
  cases hf : fetch with
  | error e => rw [hf] at h; exact absurd h (by simp)
  | ok payload =>
    rw [hf] at h
    dsimp only at h
    cases hpf : parse_funds_from_metrics payload with
    | error e => rw [hpf] at h; exact absurd h (by simp)
    | ok items =>
      rw [hpf] at h
      dsimp only at h
      by_cases hni : items.isEmpty
      · rw [if_neg (by simp [hni])] at h
        cases hagg : parse_aggregate_from_metrics payload with
        | error e => rw [hagg] at h; exact absurd h (by simp)
        | ok dn =>
          obtain ⟨day, net⟩ := dn
          rw [hagg] at h
          dsimp only at h
          by_cases hcond : (day = some yday || fo) = true
          · rw [if_pos hcond] at h
            exact ((Prod.mk.injEq ..).mp (Prod.mk.injEq .. ▸
              (Except.ok.inj h)).2).1.symm
          · rw [if_neg hcond] at h
            exact ((Prod.mk.injEq ..).mp (Prod.mk.injEq .. ▸
              (Except.ok.inj h)).2).1.symm
      · rw [if_pos (by simp [hni])] at h
        exact ((Prod.mk.injEq ..).mp (Prod.mk.injEq .. ▸
          (Except.ok.inj h)).2).1.symm

/-- Dedup bookkeeping never touches the monthly counters. -/
theorem dedupBtc_calls (st : SosoState) (emb : Option Embed) (dt : Option String)
    (ym : String) : getCalls (dedupBtc st emb dt).1 ym = getCalls st ym := by
  unfold dedupBtc
  cases emb with
  | none => rfl
  | some e =>
    dsimp only
    split_ifs <;> rfl

theorem dedupEth_calls (st : SosoState) (emb : Option Embed) (dt : Option String)
    (ym : String) : getCalls (dedupEth st emb dt).1 ym = getCalls st ym := by
  unfold dedupEth
  cases emb with
  | none => rfl
  | some e =>
    dsimp only
    split_ifs <;> rfl

/-- `finishRun` only ever yields `.sent` with the state it was given. -/
theorem finishRun_sent {st : SosoState} {embeds : List Embed} {dok : Bool}
    {st2 : SosoState} {embeds2 : List Embed}
    (h : finishRun st embeds dok = .sent st2 embeds2) : st2 = st := by
  unfold finishRun at h
  by_cases hc : (!embeds.isEmpty && !dok) = true
  · rw [if_pos hc] at h
    exact RunResult.noConfusion h
  · rw [if_neg hc] at h
    exact ((RunResult.sent.injEq .. ).mp h).1.symm

/-- C6 (amended): per-call usage is recorded in memory after each successful
`run_one` and persisted only by a fully completed run: a completed run adds
exactly one call per processed asset to the current month's bucket, while a
run aborted by a failing call (or failing delivery) persists nothing, and a
call that ultimately fails aborts the run before its usage is recorded. -/
theorem mainFlow_usage_spec (state0 : SosoState) (btcFetch ethFetch : Except Unit Json)
    (se fa fo dok : Bool) (yday : PDate) (ym : String) (mc tn : Nat) :
    (∀ st embeds,
      mainFlow state0 btcFetch ethFetch se fa fo dok yday ym mc tn = .sent st embeds →
      getCalls st ym = getCalls state0 ym + 1 + (if se then 1 else 0)) ∧
    (mainFlow state0 btcFetch ethFetch se fa fo dok yday ym mc tn = .failed →
      persistedState (mainFlow state0 btcFetch ethFetch se fa fo dok yday ym mc tn) state0
        = state0) ∧
    (btcFetch = .error () →
      can_use_api state0 ((if fa then 2 else 1) * (1 + if se then 1 else 0)) ym mc = true →
      mainFlow state0 btcFetch ethFetch se fa fo dok yday ym mc tn = .failed) := by
  refine ⟨?_, ?_, ?_⟩
  · intro st embeds hsent
    unfold mainFlow at hsent
    cases hq : can_use_api state0
        ((if fa then 2 else 1) * (1 + (if se then 1 else 0))) ym mc with
    | false =>
      rw [hq] at hsent
      simp only [Bool.not_false, eq_self_iff_true, if_true] at hsent
      exact RunResult.noConfusion hsent
    | true =>
      rw [hq] at hsent
      simp only [Bool.not_true, Bool.false_eq_true, if_false] at hsent
      cases hbtc : run_one btcFetch "BTC" yday fo tn with
      | error e =>
        rw [hbtc] at hsent
        dsimp only at hsent
        exact RunResult.noConfusion hsent
      | ok res =>
        obtain ⟨emb, used, dt⟩ := res
        rw [hbtc] at hsent
        dsimp only at hsent
        have hused : used = 1 := run_one_used hbtc
        cases se with
        | false =>
          simp only [Bool.false_eq_true, if_false] at hsent
          have hst := finishRun_sent hsent
          rw [hst, dedupBtc_calls, getCalls_add, hused]
          simp
        | true =>
          simp only [eq_self_iff_true, if_true] at hsent
          cases heth : run_one ethFetch "ETH" yday fo tn with
          | error e =>
            rw [heth] at hsent
            dsimp only at hsent
            exact RunResult.noConfusion hsent
          | ok res2 =>
            obtain ⟨emb2, used2, dt2⟩ := res2
            rw [heth] at hsent
            dsimp only at hsent
            have hused2 : used2 = 1 := run_one_used heth
            have hst := finishRun_sent hsent
            rw [hst, dedupEth_calls, getCalls_add, dedupBtc_calls, getCalls_add,
              hused, hused2]
            simp
  · intro hfail
    rw [hfail]
    rfl
  · intro hb hq
    unfold mainFlow
    rw [if_neg (by rw [hq]; decide)]
    have hr : run_one btcFetch "BTC" yday fo tn = .error () := by
      unfold run_one
      rw [hb]
    rw [hr]

/-- C6 witness: a run with successful fetches and delivery persists exactly
one recorded call for its single processed asset. -/
theorem mainFlow_usage_spec_witness :
    ∀ st embeds,
      mainFlow ⟨[], none, none⟩
        (.ok (.obj [("data", .obj [("list", .arr [.obj [("ticker", .str "IBIT"),
          ("dailyNetInflow", .obj [("status", .num 1), ("value", .num 5)])]])])]))
        (.error ()) false false false true ⟨2025, 1, 10⟩ "2025-01" 1000 24
        = .sent st embeds →
      getCalls st "2025-01" = getCalls ⟨[], none, none⟩ "2025-01" + 1
        + (if false then 1 else 0) :=
  (mainFlow_usage_spec ⟨[], none, none⟩
    (.ok (.obj [("data", .obj [("list", .arr [.obj [("ticker", .str "IBIT"),
      ("dailyNetInflow", .obj [("status", .num 1), ("value", .num 5)])]])])]))
    (.error ()) false false false true ⟨2025, 1, 10⟩ "2025-01" 1000 24).1

/-! ### C2: merge correctness of `pick_series` -/

theorem addRowAux_keys (acc : List (PDate × List FlowRec)) (r : Row) :
    (addRowAux acc r).map (fun p => p.1)
      = if r.date ∈ acc.map (fun p => p.1) then acc.map (fun p => p.1)
        else acc.map (fun p => p.1) ++ [r.date] := by
  induction acc with
  | nil => simp [addRowAux]
  | cons hd tl ih =>
    obtain ⟨k, v⟩ := hd
    by_cases hk : r.date = k
    · simp [addRowAux, hk]
    · simp only [addRowAux, if_neg hk, List.map_cons, ih]
      by_cases hmem : r.date ∈ tl.map (fun p => p.1)
      · simp [hmem, hk]
      · simp [hmem, hk]

theorem addRowAux_lookupD (acc : List (PDate × List FlowRec)) (r : Row) (d : PDate) :
    lookupD d (addRowAux acc r)
      = if d = r.date then lookupD d acc ++ r.items else lookupD d acc := by
  induction acc with
  | nil =>
    by_cases h : d = r.date
    · simp [addRowAux, lookupD, List.find?, h]
    · have hrd : ¬(r.date = d) := fun hh => h hh.symm
      simp [addRowAux, lookupD, List.find?, h, hrd]
  | cons hd tl ih =>
    obtain ⟨k, v⟩ := hd
    by_cases hrk : r.date = k
    · subst hrk
      by_cases hd1 : d = r.date
      · subst hd1
        simp [addRowAux, lookupD, List.find?]
      · have hne : (decide (r.date = d)) = false := by
          simp
          intro hh
          exact absurd hh.symm hd1
        simp [addRowAux, lookupD, List.find?, hne, hd1]
    · by_cases hd1 : d = k
      · subst hd1
        have hne : d ≠ r.date := fun hh => hrk hh.symm
        simp [addRowAux, lookupD, List.find?, if_neg hrk, hne]
      · have hne : (decide (k = d)) = false := by
          simp
          intro hh
          exact absurd hh.symm hd1
        simp only [addRowAux, if_neg hrk, lookupD, List.find?, hne]
        exact ih

theorem byDate_lookupD (rows : List Row) (acc : List (PDate × List FlowRec)) (d : PDate) :
    lookupD d (rows.foldl addRowAux acc)
      = lookupD d acc
        ++ (((rows.filter (fun r => r.date = d)).map (fun r => r.items)).flatten) := by
  induction rows generalizing acc with
  | nil => simp
  | cons r rs ih =>
    rw [List.foldl_cons, ih, addRowAux_lookupD]
    by_cases h : r.date = d
    · rw [if_pos h.symm, List.filter_cons, if_pos (by simp [h]), List.map_cons,
        List.flatten_cons, List.append_assoc]
    · have h' : ¬(d = r.date) := fun hh => h hh.symm
      rw [if_neg h', List.filter_cons, if_neg (by simp [h])]

theorem byDate_keys_mem (rows : List Row) (acc : List (PDate × List FlowRec)) (d : PDate) :
    d ∈ (rows.foldl addRowAux acc).map (fun p => p.1)
      ↔ d ∈ acc.map (fun p => p.1) ∨ d ∈ rows.map (fun r => r.date) := by
  induction rows generalizing acc with
  | nil => simp
  | cons r rs ih =>
    rw [List.foldl_cons, ih, addRowAux_keys]
    by_cases hmem : r.date ∈ acc.map (fun p => p.1)
    · rw [if_pos hmem]
      simp only [List.map_cons, List.mem_cons]
      constructor
      · rintro (h | h)
        · exact Or.inl h
        · exact Or.inr (Or.inr h)
      · rintro (h | rfl | h)
        · exact Or.inl h
        · exact Or.inl hmem
        · exact Or.inr h
    · rw [if_neg hmem]
      simp only [List.mem_append, List.mem_singleton, List.map_cons, List.mem_cons]
      tauto

theorem byDate_keys_nodup (rows : List Row) (acc : List (PDate × List FlowRec))
    (h : (acc.map (fun p => p.1)).Nodup) :
    ((rows.foldl addRowAux acc).map (fun p => p.1)).Nodup := by
  induction rows generalizing acc with
  | nil => exact h
  | cons r rs ih =>
    rw [List.foldl_cons]
    apply ih
    rw [addRowAux_keys]
    by_cases hmem : r.date ∈ acc.map (fun p => p.1)
    · rw [if_pos hmem]; exact h
    · rw [if_neg hmem]
      refine List.Nodup.append h (List.nodup_singleton _) ?_
      intro a ha hb
      rw [List.mem_singleton] at hb
      subst hb
      exact hmem ha

theorem lookupD_eq_of_mem {l : List (PDate × List FlowRec)}
    (hnd : (l.map (fun p => p.1)).Nodup) {e : PDate × List FlowRec} (hmem : e ∈ l) :
    lookupD e.1 l = e.2 := by
  induction l with
  | nil => exact absurd hmem (List.not_mem_nil e)
  | cons hd tl ih =>
    rcases List.mem_cons.mp hmem with rfl | hmem2
    · simp [lookupD, List.find?]
    · have hk : hd.1 ≠ e.1 := by
        intro hh
        have : e.1 ∈ tl.map (fun p => p.1) := List.mem_map.mpr ⟨e, hmem2, rfl⟩
        rw [List.map_cons] at hnd
        exact (List.nodup_cons.mp hnd).1 (hh ▸ this)
      have hne : (decide (hd.1 = e.1)) = false := by simp [hk]
      simp only [lookupD, List.find?, hne]
      exact ih (List.nodup_cons.mp (List.map_cons _ _ _ ▸ hnd)).2 hmem2

/-- C2: in the Series returned by `pick_series`, each date appears in
exactly one DayGroup (count 1 when emitted at any depth, 0 otherwise), that
group's items are the concatenation in discovery order of the items of all
rows emitted for that date, and the result is sorted strictly ascending by
date. -/
theorem pick_series_merge_spec (payload : Json) :
    ((pick_series payload).map (fun g => g.date)).Nodup ∧
    (∀ d : PDate, ((pick_series payload).map (fun g => g.date)).count d
        = if d ∈ (walkRows payload).map (fun r => r.date) then 1 else 0) ∧
    (∀ g ∈ pick_series payload,
      g.items = (((walkRows payload).filter (fun r => r.date = g.date)).map
        (fun r => r.items)).flatten) ∧
    (pick_series payload).Pairwise (fun a b => a.date.blt b.date = true) := by
  set rows := walkRows payload with hrows
  set bd := rows.foldl addRowAux [] with hbd
  set sorted := List.insertionSort entRel bd with hsortedDef
  have hps : pick_series payload = sorted.map (fun p => (⟨p.1, p.2⟩ : Row)) := rfl
  have hperm : sorted.Perm bd := List.perm_insertionSort entRel bd
  have hnd0 : (bd.map (fun p => p.1)).Nodup := byDate_keys_nodup rows [] (by simp)
  have hkeys : (pick_series payload).map (fun g => g.date) = sorted.map (fun p => p.1) := by
    rw [hps, List.map_map]
    rfl
  have hpermK : (sorted.map (fun p => p.1)).Perm (bd.map (fun p => p.1)) := hperm.map _
  have hndS : (sorted.map (fun p => p.1)).Nodup := hpermK.nodup_iff.mpr hnd0
  refine ⟨?_, ?_, ?_, ?_⟩
  · rw [hkeys]
    exact hndS
  · intro d
    rw [hkeys, hpermK.count_eq]
    by_cases hmem : d ∈ rows.map (fun r => r.date)
    · rw [if_pos hmem]
      have hmem' : d ∈ bd.map (fun p => p.1) :=
        (byDate_keys_mem rows [] d).mpr (Or.inr hmem)
      have hle : (bd.map (fun p => p.1)).count d ≤ 1 :=
        List.nodup_iff_count_le_one.mp hnd0 d
      have hge : 0 < (bd.map (fun p => p.1)).count d := List.count_pos_iff.mpr hmem'
      omega
    · rw [if_neg hmem]
      apply List.count_eq_zero_of_not_mem
      intro hmm
      rcases (byDate_keys_mem rows [] d).mp hmm with h | h
      · simp at h
      · exact hmem h
  · intro g hg
    rw [hps] at hg
    obtain ⟨e, heS, heq⟩ := List.mem_map.mp hg
    have heB : e ∈ bd := hperm.mem_iff.mp heS
    have hlook : lookupD e.1 bd = e.2 := lookupD_eq_of_mem hnd0 heB
    have hflat := byDate_lookupD rows [] e.1
    rw [← hbd, hlook] at hflat
    have hl0 : lookupD e.1 ([] : List (PDate × List FlowRec)) = [] := rfl
    rw [hl0, List.nil_append] at hflat
    rw [← heq]
    exact hflat
  · rw [hps, List.pairwise_map]
    have hsort : List.Pairwise entRel sorted := List.sorted_insertionSort entRel bd
    have hne : sorted.Pairwise (fun p q => p.1 ≠ q.1) := List.pairwise_map.mp hndS
    exact (hsort.and hne).imp (fun h => PDate.blt_of_ble_ne h.1 h.2)

/-- C2 witness: on the end-to-end payload of the spec, the date 2024-03-14
appears exactly once, and its group's items are the concatenation of the
rows discovered for that date. -/
theorem pick_series_merge_spec_witness :
    (((pick_series (.obj [("data", .obj [("list", .arr [.obj [
        ("date", .str "2024-03-14"),
        ("items", .arr [
          .obj [("ticker", .str "IBIT"), ("net", .str "120.5")],
          .obj [("ticker", .str "FBTC"), ("net", .str "(30.2)")]])]])])])).map
      (fun g => g.date)).count ⟨2024, 3, 14⟩
      = if (⟨2024, 3, 14⟩ : PDate) ∈ (walkRows (.obj [("data", .obj [("list", .arr [.obj [
        ("date", .str "2024-03-14"),
        ("items", .arr [
          .obj [("ticker", .str "IBIT"), ("net", .str "120.5")],
          .obj [("ticker", .str "FBTC"), ("net", .str "(30.2)")]])]])])])).map
        (fun r => r.date) then 1 else 0) ∧
    (⟨⟨2024, 3, 14⟩, [⟨"IBIT", 241/2⟩, ⟨"FBTC", -151/5⟩]⟩ : Row).items
      = (((walkRows (.obj [("data", .obj [("list", .arr [.obj [
        ("date", .str "2024-03-14"),
        ("items", .arr [
          .obj [("ticker", .str "IBIT"), ("net", .str "120.5")],
          .obj [("ticker", .str "FBTC"), ("net", .str "(30.2)")]])]])])])).filter
        (fun r => r.date = (⟨⟨2024, 3, 14⟩, [⟨"IBIT", 241/2⟩, ⟨"FBTC", -151/5⟩]⟩ : Row).date)).map
        (fun r => r.items)).flatten :=
  ⟨(pick_series_merge_spec _).2.1 ⟨2024, 3, 14⟩,
   (pick_series_merge_spec _).2.2.1 _ (by with_unfolding_all decide)⟩

/-! ### Evaluation checks of the embedded primitives -/

example : fnum (.str "(12.5)") = -25/2 := by with_unfolding_all decide
example : fnum (.str "1.2b") = 1200 := by with_unfolding_all decide
example : fnum (.str "") = 0 := by decide
example : fnum .null = 0 := by decide
example : fnum (.str " 1,2.5 ") = 25/2 := by with_unfolding_all decide
example : fnum (.str "abc") = 0 := by decide
example : fnum (.str "3") = 3 := by with_unfolding_all decide
example : fnum (.str "-2.5m") = -5/2 := by with_unfolding_all decide
example : fnum (.str "()") = 0 := by decide
example : fnum (.str "1_0") = 10 := by with_unfolding_all decide
example : fnum (.str ".5") = 1/2 := by with_unfolding_all decide
example : fnum (.str "1e2") = 100 := by with_unfolding_all decide
example : to_date (.str "2024-03-14") = some ⟨2024, 3, 14⟩ := by decide
example : to_date (.str "2024/3/4") = some ⟨2024, 3, 4⟩ := by decide
example : to_date (.str "14 mAr 2024") = some ⟨2024, 3, 14⟩ := by decide
example : to_date (.str "garbage") = none := by decide
example : to_date (.str "2024-02-30") = none := by decide
example : to_date (.str "2024-13-01") = none := by decide
example : to_date (.num 20240314) = none := by decide

example :
    pick_series (.obj [("data", .obj [("list", .arr [.obj [
        ("date", .str "2024-03-14"),
        ("items", .arr [
          .obj [("ticker", .str "IBIT"), ("net", .str "120.5")],
          .obj [("ticker", .str "FBTC"), ("net", .str "(30.2)")]])]])])])
      = [⟨⟨2024, 3, 14⟩, [⟨"IBIT", 241/2⟩, ⟨"FBTC", -151/5⟩]⟩] := by
  with_unfolding_all decide
